import Mathlib

/-! Verification of the durable worker replay engine: a shallow embedding of
ReplayState from src/golem-worker-executor/src/durable_host/replay_state.rs.
Supporting types from the golem-common crate (oplog indices, oplog entries,
deleted regions) are not part of the analysed tree and are modelled from the
specification. Oplog indices are 1-based naturals with 0 as the NONE
sentinel. The async effects of the source are sequentialised; the oplog
store collaborator becomes a list of entries passed to every operation, and
a result of none models a panic (a reached unwrap or expect) or divergence
(an infinite loop) of the original code. -/

/-- Modelled from the spec: Nat is a monotonically increasing 64-bit
index with sentinels NONE (below INITIAL) and INITIAL (the first legal
entry). We use Nat because no claim exercises 64-bit overflow, and we write
Nat rather than the alias in every signature so that arithmetic automation
sees the type directly. -/
abbrev OplogIndex := Nat

def OplogIndex.NONE : Nat := 0

def OplogIndex.INITIAL : Nat := 1

/-- Modelled from the spec: successor of an oplog index. -/
def OplogIndex.next (i : Nat) : Nat := i + 1

/-- Modelled from the spec: predecessor of an oplog index. -/
def OplogIndex.previous (i : Nat) : Nat := i - 1

/-- Modelled from the spec: range_end(n) is the last index of a range of n
entries starting at the current index. The spec text says current + n, but
the chunked scan advances with start.range_end(len).next() and must step by
exactly len entries, so the faithful reading is current + n - 1. -/
def OplogIndex.range_end (i : Nat) (n : Nat) : Nat := i + n - 1

/-- Modelled from the spec: log levels of Log entries; only used as data. -/
inductive LogLevel
  | debug
  | info
  | warn
  | error
deriving DecidableEq

/-- Modelled from the spec: persistence levels; only equality with
persist_nothing matters to the replay engine (the spec calls the non
persist-nothing default level Default, golem calls it Smart). -/
inductive PersistenceLevel
  | persist_nothing
  | smart
  | persist_remote_side_effects
deriving DecidableEq

/-- Modelled from the spec: the oplog entry cases relevant to the core.
Opaque payload data (function name, arguments, log context and message) is
embedded as naturals, and the out-of-line payload of the two
exported-function entries is inlined so that the payload decoder
collaborator always succeeds; suspend stands for the status-mutating,
non-deterministic hint cases. -/
inductive OplogEntry
  | create
  | exported_function_invoked (function_name : Nat) (function_input : List Nat)
      (idempotency_key : Nat)
  | exported_function_completed (result : Option Nat)
  | change_persistence_level (level : PersistenceLevel)
  | successful_update (target_version : Nat)
  | log (level : LogLevel) (context : Nat) (message : Nat)
  | suspend
deriving DecidableEq

/-- Modelled from the spec: is_hint holds for status-mutating,
non-deterministic entries that never participate in replay. Log entries are
hints (scenario S1), SuccessfulUpdate is stepped across while depositing an
event (scenario S5), and suspend stands for the remaining hint cases.
ChangePersistenceLevel is not a hint: should_skip_to in the source tests
is_hint first and then matches on ChangePersistenceLevel, so that branch
would otherwise be unreachable. -/
def OplogEntry.is_hint : OplogEntry → Bool
  | .log _ _ _ => true
  | .successful_update _ => true
  | .suspend => true
  | _ => false

/-- Modelled from the spec: a region of oplog indices, both bounds
inclusive: get_out_of_skipped_region resumes reading at end.next(), and
scenario S2 resumes at index 7 after region [3,6]. -/
structure OplogRegion where
  start : Nat
  end_ : Nat
deriving DecidableEq

def OplogRegion.contains (r : OplogRegion) (i : Nat) : Bool :=
  decide (r.start ≤ i) && decide (i ≤ r.end_)

/-- Modelled from the spec: DeletedRegions is a sorted set of pairwise
disjoint regions; we carry the underlying list. -/
abbrev DeletedRegions := List OplogRegion

/-- Modelled from the spec: the first region whose start is at least the
given index. The source keeps regions sorted by start; we return the
candidate with the least start so the definition does not depend on the
order of the list. -/
def find_next_deleted_region (regions : DeletedRegions) (i : Nat) : Option OplogRegion :=
  regions.foldl
    (fun acc r =>
      if i ≤ r.start then
        match acc with
        | none => some r
        | some b => if r.start < b.start then some r else some b
      else acc)
    none

/-- Modelled from the spec: membership of an index in some deleted region. -/
def is_in_deleted_region (regions : DeletedRegions) (i : Nat) : Bool :=
  regions.any (fun r => r.contains i)

inductive ReplayEvent
  | replay_finished
  | update_replayed (new_version : Nat)
deriving DecidableEq

/-- Expected-entry label of an unexpected-oplog-entry error; the source
passes the strings ExportedFunctionInvoked and ExportedFunctionCompleted. -/
inductive ExpectedEntry
  | exported_function_invoked
  | exported_function_completed
deriving DecidableEq

/-- The narrow error surface of the cursor; the got component models the
Debug rendering of the offending entry that the source formats into the
error. -/
inductive WorkerExecutorError
  | unexpected_oplog_entry (expected : ExpectedEntry) (got : OplogEntry)
deriving DecidableEq

/-- Result payload of get_oplog_entry_exported_function_invoked; the
invocation-context stack of the source is carried inside the inlined
payload model. -/
structure ExportedFunctionInvoked where
  function_name : Nat
  function_input : List Nat
  idempotency_key : Nat
deriving DecidableEq

instance {e a : Type} [DecidableEq e] [DecidableEq a] : DecidableEq (Except e a) :=
  fun x y =>
    match x, y with
    | .ok v, .ok w =>
      if h : v = w then isTrue (by simp [h]) else isFalse (by simp [h])
    | .error v, .error w =>
      if h : v = w then isTrue (by simp [h]) else isFalse (by simp [h])
    | .ok _, .error _ => isFalse (by simp)
    | .error _, .ok _ => isFalse (by simp)

/-- Fingerprint of a Log entry. The source hashes (level, context, message)
with MetroHash128 into a (u64, u64); we model the fingerprint as the
injective identity triple. -/
abbrev LogHash := LogLevel × Nat × Nat

def hash_log_entry (level : LogLevel) (context message : Nat) : LogHash :=
  (level, context, message)

/-- The replay cursor state. The owned_worker_id field and the two shared
collaborator handles (oplog_service, oplog) of the source structure are
dropped: the worker id never influences the logic and the collaborators are
modelled by the list of oplog entries passed to each operation. The atomics
and the internal RwLock are sequentialised into plain fields. -/
structure ReplayState where
  replay_target : Nat
  last_replayed_index : Nat
  skipped_regions : DeletedRegions
  next_skipped_region : Option OplogRegion
  log_hashes : List LogHash
  pending_replay_events : List ReplayEvent
  has_seen_logs : Bool
deriving DecidableEq

/-- The oplog store read contract: up to n consecutive entries beginning at
the 1-based index start, ending early at the end of the log. -/
def oplog_read (oplog : List OplogEntry) : Nat → Nat → List (Nat × OplogEntry)
  | _, 0 => []
  | start, n + 1 =>
    match oplog.get? (start - 1) with
    | none => []
    | some e => (start, e) :: oplog_read oplog (start + 1) n

def ReplayState.is_live (s : ReplayState) : Bool :=
  s.last_replayed_index == s.replay_target

def ReplayState.is_replay (s : ReplayState) : Bool :=
  !s.is_live

def ReplayState.record_replay_event (s : ReplayState) (e : ReplayEvent) : ReplayState :=
  { s with pending_replay_events := s.pending_replay_events ++ [e] }

def ReplayState.take_new_replay_events (s : ReplayState) :
    List ReplayEvent × ReplayState :=
  (s.pending_replay_events, { s with pending_replay_events := [] })

def ReplayState.switch_to_live (s : ReplayState) : ReplayState :=
  let s1 := if !s.is_live then s.record_replay_event .replay_finished else s
  { s1 with last_replayed_index := s1.replay_target }

def ReplayState.set_replay_target (s : ReplayState) (new_target : Nat) : ReplayState :=
  { s with replay_target := new_target }

def ReplayState.seen_log (s : ReplayState) (level : LogLevel) (context message : Nat) : Bool :=
  if s.has_seen_logs then
    decide (hash_log_entry level context message ∈ s.log_hashes)
  else
    false

def ReplayState.get_out_of_skipped_region (s : ReplayState) : ReplayState :=
  if s.is_replay then
    match s.next_skipped_region with
    | some region =>
      if region.start == OplogIndex.next s.last_replayed_index then
        let target := OplogIndex.next region.end_
        let s1 := { s with last_replayed_index := OplogIndex.previous target }
        { s1 with
          next_skipped_region :=
            find_next_deleted_region s1.skipped_regions s1.last_replayed_index }
      else s
    | none => s
  else s

def ReplayState.move_replay_idx (s : ReplayState) (new_idx : Nat) : ReplayState :=
  ReplayState.get_out_of_skipped_region { s with last_replayed_index := new_idx }

/-- Reads the next oplog entry, no matter if it is hint or not, following
jumps; none models the reached unwrap when the read returns no entry. -/
def ReplayState.internal_get_next_oplog_entry (oplog : List OplogEntry) (s : ReplayState) :
    Option (ReplayState × OplogEntry) :=
  let read_idx := OplogIndex.next s.last_replayed_index
  match oplog_read oplog read_idx 1 with
  | [] => none
  | (_, oplog_entry) :: _ =>
    let s1 :=
      match oplog_entry with
      | .successful_update target_version =>
        s.record_replay_event (.update_replayed target_version)
      | _ => s
    let s2 :=
      if read_idx == s1.replay_target then s1.record_replay_event .replay_finished
      else s1
    some (s2.move_replay_idx read_idx, oplog_entry)

/-- The inner scan over one chunk of the lookup: skip entries inside the
current skip region, refresh the region when standing on its end, then test
end_check and for_all_intermediate, in the order of the source. An error
result is an early return of the scan (some idx for a found index, none for
a for_all_intermediate violation); an ok result carries the current region
into the next chunk. -/
def lookup_scan_chunk (regions : DeletedRegions)
    (end_check for_all_intermediate : OplogEntry → Nat → Bool)
    (begin_idx : Nat) :
    List (Nat × OplogEntry) → Option OplogRegion →
      Except (Option Nat) (Option OplogRegion)
  | [], cur => .ok cur
  | (idx, entry) :: rest, cur =>
    if (cur.map (fun r => r.contains idx)).getD false then
      lookup_scan_chunk regions end_check for_all_intermediate begin_idx rest cur
    else
      let cur1 :=
        if (cur.map (fun r => r.end_ == idx)).getD false then
          find_next_deleted_region regions (OplogIndex.next idx)
        else cur
      if end_check entry begin_idx then .error (some idx)
      else if !for_all_intermediate entry begin_idx then .error none
      else lookup_scan_chunk regions end_check for_all_intermediate begin_idx rest cur1

/-- The chunked scan of lookup_oplog_entry_with_condition. The source loops
while start is below the replay target, reading chunks of 1024 entries and
advancing by the chunk length; when a chunk comes back empty the source
recomputes the same start and spins forever, which we model as none. The
fuel only bounds the number of chunk iterations to keep the recursion
structural: every iteration advances start by at least one while start stays
below target, so the fuel target + 2 supplied by the caller can never be
exhausted and none arises only from the empty-chunk divergence. -/
def lookup_loop (oplog : List OplogEntry) (target : Nat)
    (regions : DeletedRegions)
    (end_check for_all_intermediate : OplogEntry → Nat → Bool)
    (begin_idx : Nat) : Nat → Nat → Option OplogRegion → Option (Option Nat)
  | 0, _, _ => none
  | fuel + 1, start, cur =>
    if start < target then
      match oplog_read oplog start 1024 with
      | [] => none
      | e :: rest =>
        match lookup_scan_chunk regions end_check for_all_intermediate begin_idx
            (e :: rest) cur with
        | .error r => some r
        | .ok cur1 =>
          lookup_loop oplog target regions end_check for_all_intermediate begin_idx
            fuel (OplogIndex.next (OplogIndex.range_end start (e :: rest).length)) cur1
    else some none

def ReplayState.lookup_oplog_entry_with_condition (oplog : List OplogEntry)
    (s : ReplayState) (begin_idx : Nat)
    (end_check for_all_intermediate : OplogEntry → Nat → Bool) :
    Option (Option Nat) :=
  lookup_loop oplog s.replay_target s.skipped_regions end_check
    for_all_intermediate begin_idx (s.replay_target + 2)
    (OplogIndex.next s.last_replayed_index) s.next_skipped_region

def ReplayState.lookup_oplog_entry (oplog : List OplogEntry) (s : ReplayState)
    (begin_idx : Nat) (check : OplogEntry → Nat → Bool) :
    Option (Option Nat) :=
  s.lookup_oplog_entry_with_condition oplog begin_idx check (fun _ _ => true)

/-- The end-of-zone condition the source builds inside should_skip_to: an
entry that re-enters a non-persist-nothing level, or a function
completion. -/
def persist_nothing_zone_close (e : OplogEntry) (_ : Nat) : Bool :=
  match e with
  | .change_persistence_level l => !(l == .persist_nothing)
  | .exported_function_completed _ => true
  | _ => false

/-- Decides whether a just-read entry is auto-skipped: hints skip by one
(keeping the current last replayed index), the opening of a persist-nothing
zone skips to the end of the zone or to the replay target when the zone is
not closed; the outer none propagates a diverging lookup. -/
def ReplayState.should_skip_to (oplog : List OplogEntry) (s : ReplayState)
    (entry : OplogEntry) : Option (Option Nat) :=
  if entry.is_hint then some (some s.last_replayed_index)
  else
    match entry with
    | .change_persistence_level level =>
      if level == .persist_nothing then
        match s.lookup_oplog_entry oplog s.last_replayed_index
            persist_nothing_zone_close with
        | none => none
        | some (some end_index) => some (some end_index)
        | some none => some (some s.replay_target)
      else some none
    | _ => some none

/-- The skip_forward loop: while in replay mode, read the next entry; if
should_skip_to accepts it, fingerprint Log entries and move the cursor,
otherwise rewind to the snapshot and stop. The fuel bounds the number of
iterations; every terminating run of the source advances the cursor on each
iteration, so the fuel supplied by skip_forward is never exhausted on such
runs and none models divergence or a reached unwrap. -/
def ReplayState.skip_forward_aux (oplog : List OplogEntry) :
    Nat → ReplayState → List LogHash → Option (ReplayState × List LogHash)
  | 0, _, _ => none
  | fuel + 1, s, logs =>
    if s.is_replay then
      let saved_replay_idx := s.last_replayed_index
      let saved_next_skipped_region := s.next_skipped_region
      match s.internal_get_next_oplog_entry oplog with
      | none => none
      | some (s1, entry) =>
        match s1.should_skip_to oplog entry with
        | none => none
        | some (some last_read_idx) =>
          let logs1 :=
            match entry with
            | .log level context message =>
              let h := hash_log_entry level context message
              if h ∈ logs then logs else h :: logs
            | _ => logs
          ReplayState.skip_forward_aux oplog fuel
            { s1 with last_replayed_index := last_read_idx } logs1
        | some none =>
          some ({ s1 with
                    last_replayed_index := saved_replay_idx,
                    next_skipped_region := saved_next_skipped_region }, logs)
    else some (s, logs)

/-- skip_forward: run the loop with ample fuel, then store the collected
fingerprints, replacing log_hashes wholesale and refreshing has_seen_logs,
exactly as the tail of the source function does. -/
def ReplayState.skip_forward (oplog : List OplogEntry) (s : ReplayState) :
    Option ReplayState :=
  (ReplayState.skip_forward_aux oplog (oplog.length + 2) s []).map
    (fun p => { p.1 with log_hashes := p.2, has_seen_logs := !p.2.isEmpty })

/-- try_get_oplog_entry: snapshot, read the next entry, and either commit
(running skip_forward) or rewind the position and the cached next skipped
region. Pending events recorded by the read are not part of the snapshot. -/
def ReplayState.try_get_oplog_entry (oplog : List OplogEntry)
    (condition : OplogEntry → Bool) (s : ReplayState) :
    Option (Option (Nat × OplogEntry) × ReplayState) :=
  let saved_replay_idx := s.last_replayed_index
  let saved_next_skipped_region := s.next_skipped_region
  let read_idx := OplogIndex.next s.last_replayed_index
  match s.internal_get_next_oplog_entry oplog with
  | none => none
  | some (s1, entry) =>
    if condition entry then
      match s1.skip_forward oplog with
      | none => none
      | some s2 => some (some (read_idx, entry), s2)
    else
      some (none, { s1 with
                      last_replayed_index := saved_replay_idx,
                      next_skipped_region := saved_next_skipped_region })

/-- get_oplog_entry is try_get_oplog_entry with an always-true condition
followed by an unwrap of the inner Option. -/
def ReplayState.get_oplog_entry (oplog : List OplogEntry) (s : ReplayState) :
    Option ((Nat × OplogEntry) × ReplayState) :=
  match s.try_get_oplog_entry oplog (fun _ => true) with
  | some (some p, s1) => some (p, s1)
  | _ => none

/-- The field initialisation of ReplayState::new, before the two
construction-time cursor moves. -/
def ReplayState.new_initial (skipped_regions : DeletedRegions)
    (last_oplog_index : Nat) : ReplayState :=
  { replay_target := last_oplog_index,
    last_replayed_index := OplogIndex.NONE,
    skipped_regions := skipped_regions,
    next_skipped_region := find_next_deleted_region skipped_regions OplogIndex.NONE,
    log_hashes := [],
    pending_replay_events := [],
    has_seen_logs := false }

/-- The state of ReplayState::new after the move_replay_idx(INITIAL) step
and before the final skip_forward. -/
def ReplayState.new_before_skip (skipped_regions : DeletedRegions)
    (last_oplog_index : Nat) : ReplayState :=
  (ReplayState.new_initial skipped_regions last_oplog_index).move_replay_idx
    OplogIndex.INITIAL

/-- ReplayState::new: initialise the fields, move to INITIAL through the
get-out-of-skipped-region rule, then pre-consume leading hint entries. -/
def ReplayState.new (oplog : List OplogEntry) (skipped_regions : DeletedRegions)
    (last_oplog_index : Nat) : Option ReplayState :=
  (ReplayState.new_before_skip skipped_regions last_oplog_index).skip_forward oplog

def ReplayState.get_oplog_entry_exported_function_invoked_aux (oplog : List OplogEntry) :
    Nat → ReplayState →
      Option (Except WorkerExecutorError (Option ExportedFunctionInvoked) × ReplayState)
  | 0, _ => none
  | fuel + 1, s =>
    if s.is_replay then
      match s.get_oplog_entry oplog with
      | none => none
      | some ((_, oplog_entry), s1) =>
        match oplog_entry with
        | .exported_function_invoked function_name function_input idempotency_key =>
          some (.ok (some ⟨function_name, function_input, idempotency_key⟩), s1)
        | _ =>
          if oplog_entry.is_hint then
            ReplayState.get_oplog_entry_exported_function_invoked_aux oplog fuel s1
          else
            some (.error (.unexpected_oplog_entry .exported_function_invoked oplog_entry), s1)
    else some (.ok none, s)

/-- Typed helper: loop while replaying, expecting an
exported_function_invoked entry, tolerating hints, failing on anything
else, and returning none of the inner Option in live mode. -/
def ReplayState.get_oplog_entry_exported_function_invoked (oplog : List OplogEntry)
    (s : ReplayState) :
    Option (Except WorkerExecutorError (Option ExportedFunctionInvoked) × ReplayState) :=
  ReplayState.get_oplog_entry_exported_function_invoked_aux oplog (oplog.length + 2) s

def ReplayState.get_oplog_entry_exported_function_completed_aux (oplog : List OplogEntry) :
    Nat → ReplayState →
      Option (Except WorkerExecutorError (Option (Option Nat)) × ReplayState)
  | 0, _ => none
  | fuel + 1, s =>
    if s.is_replay then
      match s.get_oplog_entry oplog with
      | none => none
      | some ((_, oplog_entry), s1) =>
        match oplog_entry with
        | .exported_function_completed response => some (.ok (some response), s1)
        | _ =>
          if oplog_entry.is_hint then
            ReplayState.get_oplog_entry_exported_function_completed_aux oplog fuel s1
          else
            some (.error (.unexpected_oplog_entry .exported_function_completed oplog_entry), s1)
    else some (.ok none, s)

/-- Typed helper: like the invoked variant but expecting an
exported_function_completed entry and returning its decoded result. -/
def ReplayState.get_oplog_entry_exported_function_completed (oplog : List OplogEntry)
    (s : ReplayState) :
    Option (Except WorkerExecutorError (Option (Option Nat)) × ReplayState) :=
  ReplayState.get_oplog_entry_exported_function_completed_aux oplog (oplog.length + 2) s

/-- Test driver: iterate get_oplog_entry, collecting each returned
(index, entry) pair together with the state after that read; stops early
when a read does not return. -/
def ReplayState.read_trace (oplog : List OplogEntry) :
    Nat → ReplayState → List ((Nat × OplogEntry) × ReplayState)
  | 0, _ => []
  | n + 1, s =>
    match s.get_oplog_entry oplog with
    | none => []
    | some (p, s1) => (p, s1) :: ReplayState.read_trace oplog n s1

/-- Scenario S2 oplog: ten entries, no hints; entry 1 is the create entry
and entries 2 to 10 are ordinary invocations tagged with their index. -/
def oplogS2 : List OplogEntry :=
  [.create,
   .exported_function_invoked 0 [2] 0,
   .exported_function_invoked 0 [3] 0,
   .exported_function_invoked 0 [4] 0,
   .exported_function_invoked 0 [5] 0,
   .exported_function_invoked 0 [6] 0,
   .exported_function_invoked 0 [7] 0,
   .exported_function_invoked 0 [8] 0,
   .exported_function_invoked 0 [9] 0,
   .exported_function_invoked 0 [10] 0]

/-- The skipped region [3,6] of scenario S2. -/
def regionsS2 : DeletedRegions := [⟨3, 6⟩]

/-- Scenario S3 oplog: a closed persist-nothing zone followed by a function
invocation. -/
def oplogS3 : List OplogEntry :=
  [.create,
   .change_persistence_level .persist_nothing,
   .log .info 1 1,
   .log .info 1 2,
   .change_persistence_level .smart,
   .exported_function_invoked 7 [1] 9]

/-- Scenario S4 oplog: the persist-nothing zone is never closed and the log
ends at entry 4. -/
def oplogS4 : List OplogEntry :=
  [.create,
   .change_persistence_level .persist_nothing,
   .log .info 1 1,
   .log .info 1 2]

/-- Scenario S1 oplog: a duplicated hint log entry before the first
invocation. -/
def oplogS1 : List OplogEntry :=
  [.create,
   .log .info 1 2,
   .log .info 1 2,
   .exported_function_invoked 4 [] 0]

/-- Oplog for the construction-rule claim: four ordinary entries; used with
a skipped region that starts at INITIAL. -/
def oplogC4 : List OplogEntry :=
  [.create,
   .exported_function_invoked 0 [2] 0,
   .exported_function_invoked 0 [3] 0,
   .exported_function_invoked 0 [4] 0]

/-- Oplog for the implicit-safety counterexample: a persist-nothing zone
opening before the replay target that is closed only after it. -/
def oplogC9 : List OplogEntry :=
  [.create,
   .exported_function_invoked 2 [] 0,
   .change_persistence_level .persist_nothing,
   .log .info 0 0,
   .log .info 0 1,
   .change_persistence_level .smart,
   .log .info 0 2]

/-- Cursor state for the implicit-safety counterexample: entry 1 already
replayed, replay target 5, no skipped regions; the oplog store holds an
entry at every index from the read position 2 up to the target (and two
more beyond it). -/
def stateC9 : ReplayState :=
  { replay_target := 5,
    last_replayed_index := 1,
    skipped_regions := [],
    next_skipped_region := none,
    log_hashes := [],
    pending_replay_events := [],
    has_seen_logs := false }

/-- Oplog exercising the hint-tolerant loop of the typed helpers: the next
entry after position 1 is a hint log, then the expected invocation. -/
def oplogC8 : List OplogEntry :=
  [.create,
   .log .info 1 1,
   .exported_function_invoked 5 [7] 9,
   .log .info 1 2]

/-- Cursor state sitting just before the hint entry of oplogC8. -/
def stateC8 : ReplayState :=
  { replay_target := 4,
    last_replayed_index := 1,
    skipped_regions := [],
    next_skipped_region := none,
    log_hashes := [],
    pending_replay_events := [],
    has_seen_logs := false }

/-- Oplog for the typed-helper error claim: the non-hint entry at index 2 is
a completion, not an invocation, and a trailing hint follows it. -/
def oplogC10 : List OplogEntry :=
  [.create,
   .exported_function_completed none,
   .log .info 1 1]

/-- The number of replay_finished events in a list. -/
def count_replay_finished (events : List ReplayEvent) : Nat :=
  (events.filter (fun e =>
    match e with
    | .replay_finished => true
    | _ => false)).length

/-- An optional cached region is an ordered interval ending no later than
the given target. -/
def next_region_ok (target : Nat) : Option OplogRegion → Prop
  | none => True
  | some r => r.start ≤ r.end_ ∧ r.end_ ≤ target

instance (target : Nat) : (o : Option OplogRegion) → Decidable (next_region_ok target o)
  | none => isTrue trivial
  | some _ => inferInstanceAs (Decidable (_ ∧ _))

/-- Well-formedness of a cursor state over an oplog, as guaranteed by the
collaborators: the replay target is the captured log length, the cursor does
not stand past the target, and every skipped region (including the cached
next one) is an ordered interval ending no later than the target. Only the
fields relevant to control flow are constrained. -/
def ReplayState.wf (oplog : List OplogEntry) (s : ReplayState) : Prop :=
  s.replay_target = oplog.length ∧
  s.last_replayed_index ≤ s.replay_target ∧
  (∀ r ∈ s.skipped_regions, r.start ≤ r.end_ ∧ r.end_ ≤ s.replay_target) ∧
  next_region_ok s.replay_target s.next_skipped_region

instance (oplog : List OplogEntry) (s : ReplayState) : Decidable (s.wf oplog) := by
  unfold ReplayState.wf
  infer_instance

/-- Helper for first_zone_close; the counter is the number of positions left
to examine before the end of the log is passed. -/
def first_zone_close_aux (oplog : List OplogEntry) : Nat → Nat → Option Nat
  | 0, _ => none
  | fuel + 1, start =>
    match oplog.get? (start - 1) with
    | none => none
    | some e =>
      if persist_nothing_zone_close e 0 then some start
      else first_zone_close_aux oplog fuel (start + 1)

/-- Follows the claim wording for C2: the first index at or after start whose
entry either re-enters a non-persist-nothing level or is an
exported-function completion; none when no such entry exists in the log. -/
def first_zone_close (oplog : List OplogEntry) (start : Nat) : Option Nat :=
  first_zone_close_aux oplog (oplog.length + 1 - start) start

/-- Claim C1 counterexample: over the scenario S2 log of length 10 with
skipped region [3,6], the first get_oplog_entry after new returns index 2,
not 1, and afterwards the cursor position itself sits inside the skipped
region, on its inclusive end. -/
theorem claim_C1_counterexample :
    ((ReplayState.new oplogS2 regionsS2 10).bind
        (fun s => s.get_oplog_entry oplogS2)).map (fun p => p.1.1) = some 2 ∧
    ((ReplayState.new oplogS2 regionsS2 10).bind
        (fun s => s.get_oplog_entry oplogS2)).map (fun p => p.1.1) ≠ some 1 ∧
    ((ReplayState.new oplogS2 regionsS2 10).bind
        (fun s => s.get_oplog_entry oplogS2)).map
      (fun p => is_in_deleted_region regionsS2 p.2.last_replayed_index) =
      some true := by decide

/-- Claim C1 (amended): over scenario S2 sequential reads return exactly the
indices 2, 7, 8, 9, 10 in that order, the successor of the cursor position
lies outside every skipped region after construction and after every read,
and the cursor is live at the end. -/
theorem claim_C1 :
    (ReplayState.new oplogS2 regionsS2 10).map
      (fun s =>
        let t := s.read_trace oplogS2 6
        (t.map (fun p => p.1.1),
         !is_in_deleted_region regionsS2 (OplogIndex.next s.last_replayed_index),
         t.all (fun p =>
           !is_in_deleted_region regionsS2 (OplogIndex.next p.2.last_replayed_index)),
         (t.getLast?).map (fun p => p.2.is_live))) =
    some ([2, 7, 8, 9, 10], true, true, some true) := by decide

/-- Claim C3 counterexample: after new and a single get_oplog_entry over the
scenario S3 log, pending_replay_events holds two ReplayFinished events,
violating the at-most-one bound. -/
theorem claim_C3_counterexample :
    ((ReplayState.new oplogS3 [] 6).bind (fun s => s.get_oplog_entry oplogS3)).map
      (fun p => count_replay_finished p.2.pending_replay_events) = some 2 ∧
    ((ReplayState.new oplogS3 [] 6).bind (fun s => s.get_oplog_entry oplogS3)).map
      (fun p => decide (count_replay_finished p.2.pending_replay_events ≤ 1)) =
      some false := by decide

/-- Claim C3 (amended): on scenario S3 take_new_replay_events after a single
read returns exactly two ReplayFinished events and leaves none pending: the
rewinds of skip_forward and try_get_oplog_entry do not roll back recorded
events, so the entry at replay_target is read and recorded twice. -/
theorem claim_C3 :
    ((ReplayState.new oplogS3 [] 6).bind (fun s => s.get_oplog_entry oplogS3)).map
      (fun p =>
        let t := p.2.take_new_replay_events
        (count_replay_finished t.1,
         count_replay_finished t.2.pending_replay_events)) =
    some (2, 0) := by decide

/-- Claim C4 counterexample: new_before_skip leaves last_replayed_index at
INITIAL, not INITIAL - 1, and with the skipped region [1,2] starting at
INITIAL the first read returns index 2, inside the region: regions starting
at INITIAL are not jumped during construction. -/
theorem claim_C4_counterexample :
    (ReplayState.new_before_skip [⟨1, 2⟩] 4).last_replayed_index =
        OplogIndex.INITIAL ∧
    (ReplayState.new_before_skip [⟨1, 2⟩] 4).last_replayed_index ≠
        OplogIndex.previous OplogIndex.INITIAL ∧
    ((ReplayState.new oplogC4 [⟨1, 2⟩] 4).bind
        (fun s => s.get_oplog_entry oplogC4)).map
      (fun p => (p.1.1, is_in_deleted_region [⟨1, 2⟩] p.1.1)) =
      some (2, true) := by decide

/-- Claim C4 (amended): during new the cursor is advanced from NONE to
INITIAL through move_replay_idx and the get-out-of-skipped-region rule, so a
region starting at INITIAL.next() = 2 is jumped during construction (the
cursor lands on 3 and the first read returns 4), while without regions the
cursor rests at INITIAL. -/
theorem claim_C4 :
    (ReplayState.new_before_skip [] 4).last_replayed_index = OplogIndex.INITIAL ∧
    (ReplayState.new_before_skip [⟨2, 3⟩] 4).last_replayed_index = 3 ∧
    (ReplayState.new_before_skip [⟨2, 3⟩] 4).next_skipped_region = none ∧
    ((ReplayState.new oplogC4 [⟨2, 3⟩] 4).bind
        (fun s => s.get_oplog_entry oplogC4)).map (fun p => p.1.1) = some 4 := by
  decide

/-- Claim C5 counterexample: on scenario S4 the cursor is live immediately
after new, before any read; ReplayFinished never appears (the count is 0,
not 1) and a get_oplog_entry call reaches the entry-fetch unwrap, modelled
as none. -/
theorem claim_C5_counterexample :
    (ReplayState.new oplogS4 [] 4).map
      (fun s =>
        (s.is_live,
         count_replay_finished s.take_new_replay_events.1,
         s.get_oplog_entry oplogS4)) =
    some (true, 0, none) := by decide

/-- Claim C5 (amended): on scenario S4 the unclosed persist-nothing zone
makes new jump straight to replay_target: the resulting state is live with
no pending replay events at all, and a subsequent get_oplog_entry panics
(none). -/
theorem claim_C5 :
    (ReplayState.new oplogS4 [] 4).map
      (fun s =>
        (s.is_live,
         s.pending_replay_events,
         s.get_oplog_entry oplogS4)) =
    some (true, [], none) := by decide

theorem get_out_update_logs (s : ReplayState) (lh : List LogHash) (hsl : Bool) :
    ReplayState.get_out_of_skipped_region
        { s with log_hashes := lh, has_seen_logs := hsl } =
      { s.get_out_of_skipped_region with log_hashes := lh, has_seen_logs := hsl } := by
  simp only [ReplayState.get_out_of_skipped_region, ReplayState.is_replay,
    ReplayState.is_live]
  rcases hn : s.next_skipped_region with _ | r
  · split <;> simp [hn]
  · split
    · by_cases hb : r.start = OplogIndex.next s.last_replayed_index <;> simp [hb, hn]
    · simp [hn]

theorem move_replay_idx_update_logs (s : ReplayState) (lh : List LogHash)
    (hsl : Bool) (i : Nat) :
    ReplayState.move_replay_idx { s with log_hashes := lh, has_seen_logs := hsl } i =
      { s.move_replay_idx i with log_hashes := lh, has_seen_logs := hsl } := by
  simp only [ReplayState.move_replay_idx]
  exact get_out_update_logs { s with last_replayed_index := i } lh hsl

theorem internal_get_update_logs (oplog : List OplogEntry) (s : ReplayState)
    (lh : List LogHash) (hsl : Bool) :
    ReplayState.internal_get_next_oplog_entry oplog
        { s with log_hashes := lh, has_seen_logs := hsl } =
      (ReplayState.internal_get_next_oplog_entry oplog s).map
        (fun p => ({ p.1 with log_hashes := lh, has_seen_logs := hsl }, p.2)) := by
  have key : ∀ (X : List ReplayEvent) (E : OplogEntry),
      some (ReplayState.move_replay_idx
          { s with log_hashes := lh, has_seen_logs := hsl, pending_replay_events := X }
          (OplogIndex.next s.last_replayed_index), E) =
        some ({ ReplayState.move_replay_idx { s with pending_replay_events := X }
                  (OplogIndex.next s.last_replayed_index) with
                  log_hashes := lh, has_seen_logs := hsl }, E) :=
    fun X E =>
      congrArg (fun t => some (t, E))
        (move_replay_idx_update_logs { s with pending_replay_events := X } lh hsl _)
  simp only [ReplayState.internal_get_next_oplog_entry]
  cases oplog_read oplog (OplogIndex.next s.last_replayed_index) 1 with
  | nil => rfl
  | cons e rest =>
    simp only [Option.map_some']
    cases e.2 <;> simp only [ReplayState.record_replay_event] <;> split <;>
      exact key _ _

theorem should_skip_to_update_logs (oplog : List OplogEntry) (s : ReplayState)
    (lh : List LogHash) (hsl : Bool) (entry : OplogEntry) :
    ReplayState.should_skip_to oplog
        { s with log_hashes := lh, has_seen_logs := hsl } entry =
      s.should_skip_to oplog entry := rfl

theorem skip_forward_aux_update_logs (oplog : List OplogEntry) (fuel : Nat) :
    ∀ (s : ReplayState) (lh : List LogHash) (hsl : Bool) (logs : List LogHash),
      ReplayState.skip_forward_aux oplog fuel
          { s with log_hashes := lh, has_seen_logs := hsl } logs =
        (ReplayState.skip_forward_aux oplog fuel s logs).map
          (fun p => ({ p.1 with log_hashes := lh, has_seen_logs := hsl }, p.2)) := by
  induction fuel with
  | zero => intro s lh hsl logs; rfl
  | succ fuel ih =>
    intro s lh hsl logs
    simp only [ReplayState.skip_forward_aux, ReplayState.is_replay, ReplayState.is_live]
    split
    · rw [internal_get_update_logs]
      cases hg : ReplayState.internal_get_next_oplog_entry oplog s with
      | none => rfl
      | some p =>
        simp only [Option.map_some', should_skip_to_update_logs]
        cases hs : p.1.should_skip_to oplog p.2 with
        | none => rfl
        | some r =>
          cases r with
          | none => rfl
          | some last_read_idx =>
            have h1 := ih { p.1 with last_replayed_index := last_read_idx } lh hsl
            cases p.2 <;> simp only [] <;> exact h1 _
    · rfl

theorem skip_forward_update_logs (oplog : List OplogEntry) (s : ReplayState)
    (lh : List LogHash) (hsl : Bool) :
    ReplayState.skip_forward oplog { s with log_hashes := lh, has_seen_logs := hsl } =
      s.skip_forward oplog := by
  simp only [ReplayState.skip_forward, skip_forward_aux_update_logs]
  cases ReplayState.skip_forward_aux oplog (oplog.length + 2) s [] <;> rfl

/-- Claim C7: skip_forward's result is independent of the incoming
log_hashes and has_seen_logs (the set is replaced wholesale each time it
terminates), after any successful skip_forward seen_log returns true iff the
log entry's fingerprint is in log_hashes, and on scenario S1 the duplicated
log line is seen after new and forgotten after the next read. -/
theorem claim_C7 :
    (∀ (oplog : List OplogEntry) (s : ReplayState) (lh : List LogHash) (hsl : Bool),
      ReplayState.skip_forward oplog
          { s with log_hashes := lh, has_seen_logs := hsl } =
        s.skip_forward oplog) ∧
    (∀ (oplog : List OplogEntry) (s s' : ReplayState),
      s.skip_forward oplog = some s' →
      ∀ (l : LogLevel) (c m : Nat),
        (s'.seen_log l c m = true ↔ hash_log_entry l c m ∈ s'.log_hashes)) ∧
    ((ReplayState.new oplogS1 [] 4).map
      (fun s =>
        (s.seen_log .info 1 2, s.seen_log .info 1 3,
         (s.get_oplog_entry oplogS1).map
           (fun p => (p.1.1, p.2.seen_log .info 1 2, p.2.log_hashes)))) =
      some (true, false, some (4, false, []))) := by
  refine ⟨fun oplog s lh hsl => skip_forward_update_logs oplog s lh hsl, ?_, by rfl⟩
  intro oplog s s' hsf l c m
  simp only [ReplayState.skip_forward, Option.map_eq_some'] at hsf
  obtain ⟨p, hp, rfl⟩ := hsf
  simp only [ReplayState.seen_log, hash_log_entry]
  cases hq : p.2 with
  | nil => simp
  | cons x xs => simp

/-- Witness for claim C7: the independence part applied at a concrete state
over the scenario S1 log, and the seen_log equivalence applied at a concrete
post-skip state. -/
theorem claim_C7_witness :
    (ReplayState.skip_forward oplogS1
        { ReplayState.new_before_skip [] 4 with
            log_hashes := [(.warn, 5, 5)], has_seen_logs := true } =
      (ReplayState.new_before_skip [] 4).skip_forward oplogS1) ∧
    ((⟨4, 3, [], none, [(.info, 1, 2)], [.replay_finished], true⟩ :
        ReplayState).seen_log .info 1 2 = true ↔
      hash_log_entry .info 1 2 ∈
        (⟨4, 3, [], none, [(.info, 1, 2)], [.replay_finished], true⟩ :
          ReplayState).log_hashes) :=
  ⟨claim_C7.1 oplogS1 (ReplayState.new_before_skip [] 4) [(.warn, 5, 5)] true,
   claim_C7.2.1 oplogS1 (ReplayState.new_before_skip [] 4)
     ⟨4, 3, [], none, [(.info, 1, 2)], [.replay_finished], true⟩ (by decide) .info 1 2⟩

theorem oplog_read_mem_bounds (oplog : List OplogEntry) :
    ∀ (n start idx : Nat) (e : OplogEntry), (idx, e) ∈ oplog_read oplog start n →
      start ≤ idx ∧ idx ≤ oplog.length ∧ oplog.get? (idx - 1) = some e := by
  intro n
  induction n with
  | zero => intro start idx e h; simp [oplog_read] at h
  | succ n ih =>
    intro start idx e h
    rw [oplog_read] at h
    cases hg : oplog.get? (start - 1) with
    | none => rw [hg] at h; simp at h
    | some e0 =>
      rw [hg] at h
      rcases List.mem_cons.mp h with hhead | htail
      · rw [Prod.mk.injEq] at hhead
        obtain ⟨h1, h2⟩ := hhead
        refine ⟨Nat.le_of_eq h1.symm, ?_, by rw [h1, hg, h2]⟩
        have hlen : start - 1 < oplog.length := by
          by_contra hge
          rw [List.get?_eq_none.mpr (Nat.le_of_not_lt hge)] at hg
          exact Option.noConfusion hg
        omega
      · obtain ⟨ha, hb, hc⟩ := ih (start + 1) idx e htail
        exact ⟨by omega, hb, hc⟩

theorem oplog_read_cons (oplog : List OplogEntry) (start n : Nat)
    (h : start - 1 < oplog.length) :
    ∃ e rest, oplog.get? (start - 1) = some e ∧
      oplog_read oplog start (n + 1) = (start, e) :: rest := by
  cases hg : oplog.get? (start - 1) with
  | none =>
    rw [List.get?_eq_none] at hg
    omega
  | some e =>
    refine ⟨e, oplog_read oplog (start + 1) n, rfl, ?_⟩
    rw [oplog_read, hg]

theorem find_next_deleted_region_mem (i : Nat) :
    ∀ (regions : DeletedRegions) (r : OplogRegion),
      find_next_deleted_region regions i = some r → r ∈ regions := by
  have aux : ∀ (regions : DeletedRegions) (acc : Option OplogRegion) (r : OplogRegion),
      List.foldl
        (fun acc r =>
          if i ≤ r.start then
            match acc with
            | none => some r
            | some b => if r.start < b.start then some r else some b
          else acc) acc regions = some r → r ∈ regions ∨ acc = some r := by
    intro regions
    induction regions with
    | nil => intro acc r h; exact Or.inr h
    | cons x xs ih =>
      intro acc r h
      rw [List.foldl_cons] at h
      rcases ih _ r h with hmem | hacc
      · exact Or.inl (List.mem_cons_of_mem _ hmem)
      · by_cases hi : i ≤ x.start
        · simp only [if_pos hi] at hacc
          cases acc with
          | none =>
            cases hacc
            exact Or.inl (List.mem_cons_self _ _)
          | some b =>
            by_cases hlt : x.start < b.start
            · simp only [if_pos hlt] at hacc
              cases hacc
              exact Or.inl (List.mem_cons_self _ _)
            · simp only [if_neg hlt] at hacc
              exact Or.inr hacc
        · simp only [if_neg hi] at hacc
          exact Or.inr hacc
  intro regions r h
  simp only [find_next_deleted_region] at h
  rcases aux regions none r h with hmem | habs
  · exact hmem
  · exact Option.noConfusion habs

theorem next_region_ok_find (target : Nat) (regions : DeletedRegions) (i : Nat)
    (h : ∀ r ∈ regions, r.start ≤ r.end_ ∧ r.end_ ≤ target) :
    next_region_ok target (find_next_deleted_region regions i) := by
  cases hf : find_next_deleted_region regions i with
  | none => trivial
  | some r => exact h r (find_next_deleted_region_mem i regions r hf)

theorem get_out_wf (oplog : List OplogEntry) (s : ReplayState) (hwf : s.wf oplog) :
    (s.get_out_of_skipped_region).wf oplog ∧
    s.last_replayed_index ≤ (s.get_out_of_skipped_region).last_replayed_index ∧
    (s.get_out_of_skipped_region).replay_target = s.replay_target ∧
    (s.get_out_of_skipped_region).skipped_regions = s.skipped_regions ∧
    (s.get_out_of_skipped_region).pending_replay_events = s.pending_replay_events := by
  obtain ⟨ht, hlast, hregs, hnext⟩ := hwf
  cases hrep : s.is_replay with
  | false =>
    have heq : s.get_out_of_skipped_region = s := by
      unfold ReplayState.get_out_of_skipped_region
      rw [hrep]
      simp
    rw [heq]
    exact ⟨⟨ht, hlast, hregs, hnext⟩, Nat.le_refl _, rfl, rfl, rfl⟩
  | true =>
    cases hn : s.next_skipped_region with
    | none =>
      have heq : s.get_out_of_skipped_region = s := by
        unfold ReplayState.get_out_of_skipped_region
        rw [hrep, hn]
        simp
      rw [heq]
      exact ⟨⟨ht, hlast, hregs, hnext⟩, Nat.le_refl _, rfl, rfl, rfl⟩
    | some r =>
      rw [hn] at hnext
      obtain ⟨hr1, hr2⟩ := hnext
      cases hb : (r.start == OplogIndex.next s.last_replayed_index) with
      | false =>
        have heq : s.get_out_of_skipped_region = s := by
          unfold ReplayState.get_out_of_skipped_region
          rw [hrep, hn]
          simp [hb]
        rw [heq]
        exact ⟨⟨ht, hlast, hregs, by rw [hn]; exact ⟨hr1, hr2⟩⟩,
          Nat.le_refl _, rfl, rfl, rfl⟩
      | true =>
        have hstart : r.start = OplogIndex.next s.last_replayed_index := by
          simpa using hb
        have heq : s.get_out_of_skipped_region =
            { s with
                last_replayed_index := OplogIndex.previous (OplogIndex.next r.end_),
                next_skipped_region := find_next_deleted_region s.skipped_regions
                  (OplogIndex.previous (OplogIndex.next r.end_)) } := by
          unfold ReplayState.get_out_of_skipped_region
          rw [hrep, hn]
          simp [hb]
        rw [heq]
        refine ⟨⟨ht, ?_, hregs, next_region_ok_find _ _ _ hregs⟩, ?_, rfl, rfl, rfl⟩
        · show OplogIndex.previous (OplogIndex.next r.end_) ≤ s.replay_target
          simp only [OplogIndex.previous, OplogIndex.next]
          omega
        · show s.last_replayed_index ≤ OplogIndex.previous (OplogIndex.next r.end_)
          simp only [OplogIndex.previous, OplogIndex.next] at hstart ⊢
          omega

theorem move_wf (oplog : List OplogEntry) (s : ReplayState) (i : Nat)
    (ht : s.replay_target = oplog.length)
    (hi : i ≤ s.replay_target)
    (hregs : ∀ r ∈ s.skipped_regions, r.start ≤ r.end_ ∧ r.end_ ≤ s.replay_target)
    (hnext : next_region_ok s.replay_target s.next_skipped_region) :
    (s.move_replay_idx i).wf oplog ∧
    i ≤ (s.move_replay_idx i).last_replayed_index ∧
    (s.move_replay_idx i).replay_target = s.replay_target ∧
    (s.move_replay_idx i).skipped_regions = s.skipped_regions ∧
    (s.move_replay_idx i).pending_replay_events = s.pending_replay_events :=
  get_out_wf oplog { s with last_replayed_index := i } ⟨ht, hi, hregs, hnext⟩

theorem internal_get_wf (oplog : List OplogEntry) (s : ReplayState) (hwf : s.wf oplog)
    (hlt : s.last_replayed_index < s.replay_target) :
    ∃ s' e, s.internal_get_next_oplog_entry oplog = some (s', e) ∧
      s'.wf oplog ∧
      s.last_replayed_index + 1 ≤ s'.last_replayed_index ∧
      s'.replay_target = s.replay_target ∧
      s'.skipped_regions = s.skipped_regions ∧
      oplog.get? s.last_replayed_index = some e := by
  obtain ⟨ht, hlast, hregs, hnext⟩ := hwf
  have hg : ∃ e, oplog.get? s.last_replayed_index = some e := by
    cases hge : oplog.get? s.last_replayed_index with
    | none => rw [List.get?_eq_none] at hge; omega
    | some e => exact ⟨e, rfl⟩
  obtain ⟨e, he⟩ := hg
  have key : ∀ (X : List ReplayEvent),
      (ReplayState.move_replay_idx { s with pending_replay_events := X }
        (OplogIndex.next s.last_replayed_index)).wf oplog ∧
      OplogIndex.next s.last_replayed_index ≤
        (ReplayState.move_replay_idx { s with pending_replay_events := X }
          (OplogIndex.next s.last_replayed_index)).last_replayed_index ∧
      (ReplayState.move_replay_idx { s with pending_replay_events := X }
        (OplogIndex.next s.last_replayed_index)).replay_target = s.replay_target ∧
      (ReplayState.move_replay_idx { s with pending_replay_events := X }
        (OplogIndex.next s.last_replayed_index)).skipped_regions = s.skipped_regions := by
    intro X
    have h := move_wf oplog { s with pending_replay_events := X }
      (OplogIndex.next s.last_replayed_index) ht
      (by show s.last_replayed_index + 1 ≤ s.replay_target; omega) hregs hnext
    exact ⟨h.1, h.2.1, h.2.2.1, h.2.2.2.1⟩
  have hread : oplog_read oplog (OplogIndex.next s.last_replayed_index) 1 =
      [(OplogIndex.next s.last_replayed_index, e)] := by
    rw [oplog_read]
    rw [show OplogIndex.next s.last_replayed_index - 1 = s.last_replayed_index from rfl, he]
    rw [oplog_read]
  simp only [ReplayState.internal_get_next_oplog_entry, hread]
  cases e <;> split <;>
    exact ⟨_, _, rfl, (key _).1, (key _).2.1, (key _).2.2.1, (key _).2.2.2, he⟩

theorem lookup_scan_chunk_error_mem (regions : DeletedRegions)
    (end_check for_all_intermediate : OplogEntry → Nat → Bool) (begin_idx : Nat) :
    ∀ (lst : List (Nat × OplogEntry)) (cur : Option OplogRegion) (idx : Nat),
      lookup_scan_chunk regions end_check for_all_intermediate begin_idx lst cur =
        .error (some idx) →
      ∃ e, (idx, e) ∈ lst := by
  intro lst
  induction lst with
  | nil => intro cur idx h; exact Except.noConfusion h
  | cons p rest ih =>
    intro cur idx h
    rw [lookup_scan_chunk] at h
    split at h
    · obtain ⟨e, he⟩ := ih _ _ h
      exact ⟨e, List.mem_cons_of_mem _ he⟩
    · split at h
      · split at h
        · rw [Except.error.injEq, Option.some.injEq] at h
          exact ⟨p.2, by rw [← h]; exact List.mem_cons_self _ _⟩
        · split at h
          · rw [Except.error.injEq] at h
            exact Option.noConfusion h
          · obtain ⟨e, he⟩ := ih _ _ h
            exact ⟨e, List.mem_cons_of_mem _ he⟩
      · split at h
        · rw [Except.error.injEq, Option.some.injEq] at h
          exact ⟨p.2, by rw [← h]; exact List.mem_cons_self _ _⟩
        · split at h
          · rw [Except.error.injEq] at h
            exact Option.noConfusion h
          · obtain ⟨e, he⟩ := ih _ _ h
            exact ⟨e, List.mem_cons_of_mem _ he⟩

theorem lookup_loop_wf (oplog : List OplogEntry) (target : Nat)
    (regions : DeletedRegions)
    (end_check for_all_intermediate : OplogEntry → Nat → Bool) (begin_idx : Nat)
    (htL : target = oplog.length) :
    ∀ (fuel start : Nat) (cur : Option OplogRegion),
      1 ≤ start → target - start < fuel →
      ∃ res, lookup_loop oplog target regions end_check for_all_intermediate
          begin_idx fuel start cur = some res ∧
        ∀ idx, res = some idx → start ≤ idx ∧ idx ≤ oplog.length := by
  intro fuel
  induction fuel with
  | zero => intro start cur h1 h2; omega
  | succ fuel ih =>
    intro start cur h1 h2
    rw [lookup_loop]
    by_cases hlt : start < target
    · rw [if_pos hlt]
      obtain ⟨e, rest, hE, hchunk⟩ :=
        oplog_read_cons oplog start 1023 (by omega)
      simp only [hchunk]
      cases hscan : lookup_scan_chunk regions end_check for_all_intermediate begin_idx
          ((start, e) :: rest) cur with
      | error r =>
        refine ⟨r, rfl, ?_⟩
        intro idx hr
        subst hr
        obtain ⟨e2, he2⟩ := lookup_scan_chunk_error_mem regions end_check
          for_all_intermediate begin_idx _ _ _ hscan
        have hb := oplog_read_mem_bounds oplog 1024 start idx e2 (hchunk ▸ he2)
        exact ⟨hb.1, hb.2.1⟩
      | ok cur1 =>
        have hrec := ih (OplogIndex.next (OplogIndex.range_end start
          ((start, e) :: rest).length)) cur1
          (by simp only [OplogIndex.next, OplogIndex.range_end]; omega)
          (by simp only [OplogIndex.next, OplogIndex.range_end, List.length_cons]; omega)
        obtain ⟨res, hres, hbound⟩ := hrec
        refine ⟨res, hres, ?_⟩
        intro idx hr
        have hb := hbound idx hr
        constructor
        · refine Nat.le_trans ?_ hb.1
          simp only [OplogIndex.next, OplogIndex.range_end]
          omega
        · exact hb.2
    · rw [if_neg hlt]
      exact ⟨none, rfl, fun idx h => Option.noConfusion h⟩

theorem should_skip_to_wf (oplog : List OplogEntry) (s : ReplayState)
    (e : OplogEntry) (hwf : s.wf oplog) :
    ∃ r, s.should_skip_to oplog e = some r ∧
      ∀ j, r = some j →
        j ≤ s.replay_target ∧
        (j = s.last_replayed_index ∨ s.last_replayed_index + 1 ≤ j ∨
          j = s.replay_target) := by
  obtain ⟨ht, hlast, hregs, hnext⟩ := hwf
  cases hh : e.is_hint with
  | true =>
    have heq : s.should_skip_to oplog e = some (some s.last_replayed_index) := by
      unfold ReplayState.should_skip_to
      rw [hh]
      simp
    exact ⟨_, heq, fun j hj => by cases hj; exact ⟨hlast, Or.inl rfl⟩⟩
  | false =>
    cases e with
    | change_persistence_level level =>
      cases hl : (level == PersistenceLevel.persist_nothing) with
      | false =>
        have heq : s.should_skip_to oplog (.change_persistence_level level) =
            some none := by
          unfold ReplayState.should_skip_to
          rw [hh]
          simp [hl]
        exact ⟨none, heq, fun j hj => Option.noConfusion hj⟩
      | true =>
        obtain ⟨res, hres, hbound⟩ := lookup_loop_wf oplog s.replay_target
          s.skipped_regions persist_nothing_zone_close (fun _ _ => true)
          s.last_replayed_index ht (s.replay_target + 2)
          (OplogIndex.next s.last_replayed_index) s.next_skipped_region
          (by simp [OplogIndex.next]) (by omega)
        have hres' : s.lookup_oplog_entry oplog s.last_replayed_index
            persist_nothing_zone_close = some res := hres
        cases res with
        | none =>
          have heq : s.should_skip_to oplog (.change_persistence_level level) =
              some (some s.replay_target) := by
            unfold ReplayState.should_skip_to
            rw [hh]
            simp [hl, hres']
          exact ⟨_, heq,
            fun j hj => by cases hj; exact ⟨Nat.le_refl _, Or.inr (Or.inr rfl)⟩⟩
        | some idx =>
          have heq : s.should_skip_to oplog (.change_persistence_level level) =
              some (some idx) := by
            unfold ReplayState.should_skip_to
            rw [hh]
            simp [hl, hres']
          refine ⟨_, heq, fun j hj => ?_⟩
          cases hj
          obtain ⟨hge, hle⟩ := hbound idx rfl
          refine ⟨by omega, Or.inr (Or.inl ?_)⟩
          simp only [OplogIndex.next] at hge
          omega
    | create =>
      have heq : s.should_skip_to oplog .create = some none := by
        unfold ReplayState.should_skip_to
        rw [hh]
        simp
      exact ⟨none, heq, fun j hj => Option.noConfusion hj⟩
    | exported_function_invoked a b c =>
      have heq : s.should_skip_to oplog (.exported_function_invoked a b c) =
          some none := by
        unfold ReplayState.should_skip_to
        rw [hh]
        simp
      exact ⟨none, heq, fun j hj => Option.noConfusion hj⟩
    | exported_function_completed a =>
      have heq : s.should_skip_to oplog (.exported_function_completed a) =
          some none := by
        unfold ReplayState.should_skip_to
        rw [hh]
        simp
      exact ⟨none, heq, fun j hj => Option.noConfusion hj⟩
    | successful_update a => simp [OplogEntry.is_hint] at hh
    | log a b c => simp [OplogEntry.is_hint] at hh
    | suspend => simp [OplogEntry.is_hint] at hh

theorem skip_forward_aux_wf (oplog : List OplogEntry) :
    ∀ (fuel : Nat) (s : ReplayState) (logs : List LogHash),
      s.wf oplog → s.replay_target - s.last_replayed_index < fuel →
      ∃ s' logs', ReplayState.skip_forward_aux oplog fuel s logs = some (s', logs') ∧
        s'.wf oplog ∧
        s.last_replayed_index ≤ s'.last_replayed_index ∧
        s'.replay_target = s.replay_target ∧
        s'.skipped_regions = s.skipped_regions := by
  intro fuel
  induction fuel with
  | zero => intro s logs hwf hf; omega
  | succ fuel ih =>
    intro s logs hwf hf
    rw [ReplayState.skip_forward_aux]
    cases hrep : s.is_replay with
    | false =>
      simp only [Bool.false_eq_true, if_false]
      exact ⟨s, logs, rfl, hwf, Nat.le_refl _, rfl, rfl⟩
    | true =>
      simp only [if_true]
      have hne : s.last_replayed_index ≠ s.replay_target := by
        intro hcontra
        rw [ReplayState.is_replay, ReplayState.is_live] at hrep
        simp [hcontra] at hrep
      have hlt : s.last_replayed_index < s.replay_target :=
        Nat.lt_of_le_of_ne hwf.2.1 hne
      obtain ⟨s1, e, hget, hwf1, hstep, ht1, hsk1, hee⟩ :=
        internal_get_wf oplog s hwf hlt
      simp only [hget]
      obtain ⟨r, hssk, hrb⟩ := should_skip_to_wf oplog s1 e hwf1
      simp only [hssk]
      cases r with
      | none =>
        refine ⟨_, logs, rfl, ?_, Nat.le_refl _, ht1, hsk1⟩
        exact ⟨by rw [ht1]; exact hwf.1, by rw [ht1]; exact hwf.2.1,
          by rw [ht1, hsk1]; exact hwf.2.2.1, by rw [ht1]; exact hwf.2.2.2⟩
      | some j =>
        obtain ⟨hjle, hjd⟩ := hrb j rfl
        have hjgt : s.last_replayed_index + 1 ≤ j := by
          rcases hjd with h | h | h
          · omega
          · omega
          · rw [h, ht1]; omega
        have hwf2 : ReplayState.wf oplog { s1 with last_replayed_index := j } :=
          ⟨hwf1.1, hjle, hwf1.2.2.1, hwf1.2.2.2⟩
        obtain ⟨s', logs', heq2, hwf', hmono', ht', hsk'⟩ :=
          ih { s1 with last_replayed_index := j } _ hwf2
            (by show s1.replay_target - j < fuel; rw [ht1]; omega)
        have hmono'' : j ≤ s'.last_replayed_index := hmono'
        have ht'' : s'.replay_target = s1.replay_target := ht'
        have hsk'' : s'.skipped_regions = s1.skipped_regions := hsk'
        exact ⟨s', _, heq2, hwf', by omega, by rw [ht'', ht1], by rw [hsk'', hsk1]⟩

theorem try_get_true_wf (oplog : List OplogEntry) (s : ReplayState)
    (hwf : s.wf oplog) (hrep : s.is_replay = true) :
    ∃ e s2, oplog.get? s.last_replayed_index = some e ∧
      s.try_get_oplog_entry oplog (fun _ => true) =
        some (some (OplogIndex.next s.last_replayed_index, e), s2) ∧
      s.get_oplog_entry oplog =
        some ((OplogIndex.next s.last_replayed_index, e), s2) ∧
      s2.wf oplog ∧
      s.last_replayed_index < s2.last_replayed_index ∧
      s2.replay_target = s.replay_target ∧
      s2.skipped_regions = s.skipped_regions := by
  have hne : s.last_replayed_index ≠ s.replay_target := by
    intro hcontra
    rw [ReplayState.is_replay, ReplayState.is_live] at hrep
    simp [hcontra] at hrep
  have hlt : s.last_replayed_index < s.replay_target :=
    Nat.lt_of_le_of_ne hwf.2.1 hne
  obtain ⟨s1, e, hget, hwf1, hstep, ht1, hsk1, hee⟩ := internal_get_wf oplog s hwf hlt
  obtain ⟨s2, logs2, hskip, hwf2, hmono2, ht2, hsk2⟩ :=
    skip_forward_aux_wf oplog (oplog.length + 2) s1 []
      hwf1 (by have := hwf1.1; omega)
  have hskipf : s1.skip_forward oplog =
      some { s2 with log_hashes := logs2, has_seen_logs := !logs2.isEmpty } := by
    unfold ReplayState.skip_forward
    rw [hskip]
    rfl
  refine ⟨e, { s2 with log_hashes := logs2, has_seen_logs := !logs2.isEmpty },
    hee, ?_, ?_, ?_, ?_, ?_, ?_⟩
  · unfold ReplayState.try_get_oplog_entry
    simp only [hget, hskipf]
    simp
  · unfold ReplayState.get_oplog_entry ReplayState.try_get_oplog_entry
    simp only [hget, hskipf]
    simp
  · exact ⟨hwf2.1, hwf2.2.1, hwf2.2.2.1, hwf2.2.2.2⟩
  · show s.last_replayed_index < s2.last_replayed_index
    omega
  · show s2.replay_target = s.replay_target
    rw [ht2, ht1]
  · show s2.skipped_regions = s.skipped_regions
    rw [hsk2, hsk1]

/-- Claim C9 counterexample: stateC9 is in replay mode and the oplog holds
an entry at every index from the read position up to replay_target, yet
try_get_oplog_entry with an always-true condition returns none: the
persist-nothing lookup jumps past the narrowed replay target and the entry
fetch unwrap is reached. -/
theorem claim_C9_counterexample :
    ReplayState.is_replay stateC9 = true ∧
    stateC9.last_replayed_index < stateC9.replay_target ∧
    (∀ i, OplogIndex.next stateC9.last_replayed_index ≤ i →
      i ≤ stateC9.replay_target → (oplogC9.get? (i - 1)).isSome = true) ∧
    ReplayState.try_get_oplog_entry oplogC9 (fun _ => true) stateC9 = none := by
  refine ⟨by decide, by decide, ?_, by decide⟩
  intro i h1 h2
  have h1' : 2 ≤ i := h1
  have h2' : i ≤ 5 := h2
  interval_cases i <;> decide

/-- Claim C9 (amended): under the full well-formedness invariant (the replay
target equals the log length and the skipped regions lie within it),
try_get_oplog_entry with an always-true condition in replay mode always
returns Some, so the unwraps inside get_oplog_entry and
internal_get_next_oplog_entry are never reached on their failure branch. -/
theorem claim_C9 (oplog : List OplogEntry) (s : ReplayState)
    (hwf : s.wf oplog) (hrep : s.is_replay = true) :
    ∃ e s2,
      s.try_get_oplog_entry oplog (fun _ => true) =
        some (some (OplogIndex.next s.last_replayed_index, e), s2) ∧
      s.get_oplog_entry oplog =
        some ((OplogIndex.next s.last_replayed_index, e), s2) := by
  obtain ⟨e, s2, _, h1, h2, _⟩ := try_get_true_wf oplog s hwf hrep
  exact ⟨e, s2, h1, h2⟩

/-- Witness for claim C9: the amended theorem applied at a concrete
well-formed replay state over the oplogC10 log shows get_oplog_entry
succeeds. -/
theorem claim_C9_witness :
    (ReplayState.get_oplog_entry oplogC10
      (⟨3, 1, [], none, [], [], false⟩ : ReplayState)).isSome = true := by
  obtain ⟨e, s2, _, h2⟩ :=
    claim_C9 oplogC10 ⟨3, 1, [], none, [], [], false⟩ (by decide) (by decide)
  rw [h2]
  rfl

/-- Claim C6: in replay mode under the well-formedness invariant,
try_get_oplog_entry with an always-false condition returns None, restores
last_replayed_index and next_skipped_region to their values before the call,
and the immediately following get_oplog_entry returns the same (index,
entry) pair the rejected call peeked. -/
theorem claim_C6 (oplog : List OplogEntry) (s : ReplayState)
    (hwf : s.wf oplog) (hrep : s.is_replay = true) :
    ∃ e s', oplog.get? s.last_replayed_index = some e ∧
      s.try_get_oplog_entry oplog (fun _ => false) = some (none, s') ∧
      s'.last_replayed_index = s.last_replayed_index ∧
      s'.next_skipped_region = s.next_skipped_region ∧
      (s'.get_oplog_entry oplog).map Prod.fst =
        some (OplogIndex.next s.last_replayed_index, e) := by
  have hne : s.last_replayed_index ≠ s.replay_target := by
    intro hcontra
    rw [ReplayState.is_replay, ReplayState.is_live] at hrep
    simp [hcontra] at hrep
  have hlt : s.last_replayed_index < s.replay_target :=
    Nat.lt_of_le_of_ne hwf.2.1 hne
  obtain ⟨s1, e, hget, hwf1, hstep, ht1, hsk1, hee⟩ := internal_get_wf oplog s hwf hlt
  have htry : s.try_get_oplog_entry oplog (fun _ => false) =
      some (none,
        { s1 with
            last_replayed_index := s.last_replayed_index,
            next_skipped_region := s.next_skipped_region }) := by
    unfold ReplayState.try_get_oplog_entry
    simp only [hget]
    simp
  refine ⟨e, _, hee, htry, rfl, rfl, ?_⟩
  have hwf' : ReplayState.wf oplog
      { s1 with
          last_replayed_index := s.last_replayed_index,
          next_skipped_region := s.next_skipped_region } := by
    refine ⟨hwf1.1, ?_, hwf1.2.2.1, ?_⟩
    · show s.last_replayed_index ≤ s1.replay_target
      rw [ht1]
      exact hwf.2.1
    · show next_region_ok s1.replay_target s.next_skipped_region
      rw [ht1]
      exact hwf.2.2.2
  have hrep' : ReplayState.is_replay
      { s1 with
          last_replayed_index := s.last_replayed_index,
          next_skipped_region := s.next_skipped_region } = true := by
    show (!(s.last_replayed_index == s1.replay_target)) = true
    rw [ht1]
    exact hrep
  obtain ⟨e2, s2, hee2, _, hget2, _, _, _, _⟩ :=
    try_get_true_wf oplog
      { s1 with
          last_replayed_index := s.last_replayed_index,
          next_skipped_region := s.next_skipped_region } hwf' hrep'
  have hee2' : oplog.get? s.last_replayed_index = some e2 := hee2
  rw [hee] at hee2'
  have he2 : e2 = e := (Option.some.injEq _ _ ▸ hee2').symm
  rw [hget2, he2]
  rfl

/-- Witness for claim C6: the peek round-trip applied at a concrete replay
state with a pending skipped region over the scenario S2 log. -/
theorem claim_C6_witness :
    (ReplayState.try_get_oplog_entry oplogS2 (fun _ => false)
      (⟨10, 1, [⟨3, 6⟩], some ⟨3, 6⟩, [], [], false⟩ : ReplayState)).isSome = true := by
  obtain ⟨e, s', _, htry, _⟩ := claim_C6 oplogS2
    ⟨10, 1, [⟨3, 6⟩], some ⟨3, 6⟩, [], [], false⟩ (by decide) (by decide)
  rw [htry]
  rfl

theorem helper_invoked_error_mono (oplog : List OplogEntry) :
    ∀ (fuel : Nat) (s : ReplayState) (err : WorkerExecutorError) (s2 : ReplayState),
      s.wf oplog →
      ReplayState.get_oplog_entry_exported_function_invoked_aux oplog fuel s =
        some (.error err, s2) →
      s.last_replayed_index < s2.last_replayed_index := by
  intro fuel
  induction fuel with
  | zero => intro s err s2 hwf h; exact Option.noConfusion h
  | succ fuel ih =>
    intro s err s2 hwf h
    rw [ReplayState.get_oplog_entry_exported_function_invoked_aux] at h
    cases hrep : s.is_replay with
    | false => simp only [hrep, Bool.false_eq_true, if_false] at h; simp at h
    | true =>
      simp only [hrep, if_true] at h
      obtain ⟨e', s2', hee', htry', hget', hwf2', hmono', _, _⟩ :=
        try_get_true_wf oplog s hwf hrep
      simp only [hget'] at h
      cases e' with
      | exported_function_invoked a b c => simp at h
      | log a b c =>
        simp only [OplogEntry.is_hint, if_true] at h
        exact Nat.lt_trans hmono' (ih s2' err s2 hwf2' h)
      | successful_update a =>
        simp only [OplogEntry.is_hint, if_true] at h
        exact Nat.lt_trans hmono' (ih s2' err s2 hwf2' h)
      | suspend =>
        simp only [OplogEntry.is_hint, if_true] at h
        exact Nat.lt_trans hmono' (ih s2' err s2 hwf2' h)
      | create =>
        simp only [OplogEntry.is_hint, Bool.false_eq_true, if_false,
          Option.some.injEq, Prod.mk.injEq] at h
        rw [← h.2]
        exact hmono'
      | exported_function_completed a =>
        simp only [OplogEntry.is_hint, Bool.false_eq_true, if_false,
          Option.some.injEq, Prod.mk.injEq] at h
        rw [← h.2]
        exact hmono'
      | change_persistence_level a =>
        simp only [OplogEntry.is_hint, Bool.false_eq_true, if_false,
          Option.some.injEq, Prod.mk.injEq] at h
        rw [← h.2]
        exact hmono'

theorem helper_completed_error_mono (oplog : List OplogEntry) :
    ∀ (fuel : Nat) (s : ReplayState) (err : WorkerExecutorError) (s2 : ReplayState),
      s.wf oplog →
      ReplayState.get_oplog_entry_exported_function_completed_aux oplog fuel s =
        some (.error err, s2) →
      s.last_replayed_index < s2.last_replayed_index := by
  intro fuel
  induction fuel with
  | zero => intro s err s2 hwf h; exact Option.noConfusion h
  | succ fuel ih =>
    intro s err s2 hwf h
    rw [ReplayState.get_oplog_entry_exported_function_completed_aux] at h
    cases hrep : s.is_replay with
    | false => simp only [hrep, Bool.false_eq_true, if_false] at h; simp at h
    | true =>
      simp only [hrep, if_true] at h
      obtain ⟨e', s2', hee', htry', hget', hwf2', hmono', _, _⟩ :=
        try_get_true_wf oplog s hwf hrep
      simp only [hget'] at h
      cases e' with
      | exported_function_completed a => simp at h
      | log a b c =>
        simp only [OplogEntry.is_hint, if_true] at h
        exact Nat.lt_trans hmono' (ih s2' err s2 hwf2' h)
      | successful_update a =>
        simp only [OplogEntry.is_hint, if_true] at h
        exact Nat.lt_trans hmono' (ih s2' err s2 hwf2' h)
      | suspend =>
        simp only [OplogEntry.is_hint, if_true] at h
        exact Nat.lt_trans hmono' (ih s2' err s2 hwf2' h)
      | create =>
        simp only [OplogEntry.is_hint, Bool.false_eq_true, if_false,
          Option.some.injEq, Prod.mk.injEq] at h
        rw [← h.2]
        exact hmono'
      | exported_function_invoked a b c =>
        simp only [OplogEntry.is_hint, Bool.false_eq_true, if_false,
          Option.some.injEq, Prod.mk.injEq] at h
        rw [← h.2]
        exact hmono'
      | change_persistence_level a =>
        simp only [OplogEntry.is_hint, Bool.false_eq_true, if_false,
          Option.some.injEq, Prod.mk.injEq] at h
        rw [← h.2]
        exact hmono'

/-- Claim C10: when a typed helper returns the UnexpectedOplogEntry error
the cursor state is not restored: last_replayed_index has strictly advanced
for both helpers, and concretely on oplogC10 the invoked helper fails while
the cursor has moved from 1 past the offending entry and its trailing hint
to 3. -/
theorem claim_C10 :
    (∀ (oplog : List OplogEntry) (s : ReplayState) (err : WorkerExecutorError)
        (s2 : ReplayState), s.wf oplog →
      s.get_oplog_entry_exported_function_invoked oplog = some (.error err, s2) →
      s.last_replayed_index < s2.last_replayed_index) ∧
    (∀ (oplog : List OplogEntry) (s : ReplayState) (err : WorkerExecutorError)
        (s2 : ReplayState), s.wf oplog →
      s.get_oplog_entry_exported_function_completed oplog = some (.error err, s2) →
      s.last_replayed_index < s2.last_replayed_index) ∧
    (ReplayState.get_oplog_entry_exported_function_invoked oplogC10
        (⟨3, 1, [], none, [], [], false⟩ : ReplayState) =
      some (.error (.unexpected_oplog_entry .exported_function_invoked
          (.exported_function_completed none)),
        ⟨3, 3, [], none, [(.info, 1, 1)], [.replay_finished], true⟩)) :=
  ⟨fun oplog s err s2 hwf h =>
      helper_invoked_error_mono oplog (oplog.length + 2) s err s2 hwf h,
   fun oplog s err s2 hwf h =>
      helper_completed_error_mono oplog (oplog.length + 2) s err s2 hwf h,
   by decide⟩

/-- Witness for claim C10: the invoked-helper monotonicity applied at the
concrete oplogC10 error run, whose preconditions hold by evaluation. -/
theorem claim_C10_witness :
    ReplayState.wf oplogC10 (⟨3, 1, [], none, [], [], false⟩ : ReplayState) ∧
    (1 : Nat) < 3 :=
  ⟨by decide,
   claim_C10.1 oplogC10 ⟨3, 1, [], none, [], [], false⟩
     (.unexpected_oplog_entry .exported_function_invoked
       (.exported_function_completed none))
     ⟨3, 3, [], none, [(.info, 1, 1)], [.replay_finished], true⟩
     (by decide) (by decide)⟩

theorem helper_invoked_live (oplog : List OplogEntry) (fuel : Nat) (s : ReplayState)
    (h : s.is_live = true) :
    ReplayState.get_oplog_entry_exported_function_invoked_aux oplog (fuel + 1) s =
      some (.ok none, s) := by
  rw [ReplayState.get_oplog_entry_exported_function_invoked_aux]
  simp [ReplayState.is_replay, h]

theorem helper_completed_live (oplog : List OplogEntry) (fuel : Nat) (s : ReplayState)
    (h : s.is_live = true) :
    ReplayState.get_oplog_entry_exported_function_completed_aux oplog (fuel + 1) s =
      some (.ok none, s) := by
  rw [ReplayState.get_oplog_entry_exported_function_completed_aux]
  simp [ReplayState.is_replay, h]

theorem helper_invoked_unexpected (oplog : List OplogEntry) (fuel : Nat)
    (s : ReplayState) (i : Nat) (e : OplogEntry) (s1 : ReplayState)
    (hrep : s.is_replay = true)
    (hg : s.get_oplog_entry oplog = some ((i, e), s1))
    (hhint : e.is_hint = false)
    (hne : ∀ n inp k, e ≠ .exported_function_invoked n inp k) :
    ReplayState.get_oplog_entry_exported_function_invoked_aux oplog (fuel + 1) s =
      some (.error (.unexpected_oplog_entry .exported_function_invoked e), s1) := by
  rw [ReplayState.get_oplog_entry_exported_function_invoked_aux]
  simp only [hrep, if_true, hg]
  cases e with
  | exported_function_invoked a b c => exact absurd rfl (hne a b c)
  | log a b c => simp [OplogEntry.is_hint] at hhint
  | successful_update a => simp [OplogEntry.is_hint] at hhint
  | suspend => simp [OplogEntry.is_hint] at hhint
  | create => simp [OplogEntry.is_hint]
  | exported_function_completed a => simp [OplogEntry.is_hint]
  | change_persistence_level a => simp [OplogEntry.is_hint]

theorem helper_completed_unexpected (oplog : List OplogEntry) (fuel : Nat)
    (s : ReplayState) (i : Nat) (e : OplogEntry) (s1 : ReplayState)
    (hrep : s.is_replay = true)
    (hg : s.get_oplog_entry oplog = some ((i, e), s1))
    (hhint : e.is_hint = false)
    (hne : ∀ r, e ≠ .exported_function_completed r) :
    ReplayState.get_oplog_entry_exported_function_completed_aux oplog (fuel + 1) s =
      some (.error (.unexpected_oplog_entry .exported_function_completed e), s1) := by
  rw [ReplayState.get_oplog_entry_exported_function_completed_aux]
  simp only [hrep, if_true, hg]
  cases e with
  | exported_function_completed a => exact absurd rfl (hne a)
  | log a b c => simp [OplogEntry.is_hint] at hhint
  | successful_update a => simp [OplogEntry.is_hint] at hhint
  | suspend => simp [OplogEntry.is_hint] at hhint
  | create => simp [OplogEntry.is_hint]
  | exported_function_invoked a b c => simp [OplogEntry.is_hint]
  | change_persistence_level a => simp [OplogEntry.is_hint]

/-- Claim C8: both typed helpers return Ok(None) in live mode and leave the
state unchanged; in replay mode a non-hint entry of the wrong shape produces
an UnexpectedOplogEntry error carrying the read entry; and concretely on
oplogC8 the invocation at index 3 is returned after looping past the leading
log hint. -/
theorem claim_C8 :
    (∀ (oplog : List OplogEntry) (s : ReplayState), s.is_live = true →
      s.get_oplog_entry_exported_function_invoked oplog = some (.ok none, s)) ∧
    (∀ (oplog : List OplogEntry) (s : ReplayState), s.is_live = true →
      s.get_oplog_entry_exported_function_completed oplog = some (.ok none, s)) ∧
    (∀ (oplog : List OplogEntry) (s : ReplayState) (i : Nat) (e : OplogEntry)
        (s1 : ReplayState),
      s.is_replay = true →
      s.get_oplog_entry oplog = some ((i, e), s1) →
      e.is_hint = false →
      (∀ n inp k, e ≠ .exported_function_invoked n inp k) →
      s.get_oplog_entry_exported_function_invoked oplog =
        some (.error (.unexpected_oplog_entry .exported_function_invoked e), s1)) ∧
    (∀ (oplog : List OplogEntry) (s : ReplayState) (i : Nat) (e : OplogEntry)
        (s1 : ReplayState),
      s.is_replay = true →
      s.get_oplog_entry oplog = some ((i, e), s1) →
      e.is_hint = false →
      (∀ r, e ≠ .exported_function_completed r) →
      s.get_oplog_entry_exported_function_completed oplog =
        some (.error (.unexpected_oplog_entry .exported_function_completed e), s1)) ∧
    (ReplayState.get_oplog_entry_exported_function_invoked oplogC8 stateC8 =
      some (.ok (some ⟨5, [7], 9⟩),
        ⟨4, 4, [], none, [(.info, 1, 2)], [.replay_finished], true⟩)) :=
  ⟨fun oplog s h => helper_invoked_live oplog (oplog.length + 1) s h,
   fun oplog s h => helper_completed_live oplog (oplog.length + 1) s h,
   fun oplog s i e s1 hrep hg hhint hne =>
     helper_invoked_unexpected oplog (oplog.length + 1) s i e s1 hrep hg hhint hne,
   fun oplog s i e s1 hrep hg hhint hne =>
     helper_completed_unexpected oplog (oplog.length + 1) s i e s1 hrep hg hhint hne,
   by decide⟩

/-- Witness for claim C8: the live part applied at a concrete live state,
and the completed-helper unexpected-entry part applied at a concrete replay
state over the scenario S2 log. -/
theorem claim_C8_witness :
    ReplayState.is_live (⟨7, 7, [], none, [], [], false⟩ : ReplayState) = true ∧
    ReplayState.get_oplog_entry_exported_function_invoked []
        (⟨7, 7, [], none, [], [], false⟩ : ReplayState) =
      some (.ok none, ⟨7, 7, [], none, [], [], false⟩) ∧
    ReplayState.get_oplog_entry_exported_function_completed oplogS2
        (⟨10, 9, [], none, [], [], false⟩ : ReplayState) =
      some (.error (.unexpected_oplog_entry .exported_function_completed
          (.exported_function_invoked 0 [10] 0)),
        ⟨10, 10, [], none, [], [.replay_finished], false⟩) :=
  ⟨rfl,
   claim_C8.1 [] ⟨7, 7, [], none, [], [], false⟩ rfl,
   claim_C8.2.2.2.1 oplogS2 ⟨10, 9, [], none, [], [], false⟩ 10
     (.exported_function_invoked 0 [10] 0)
     ⟨10, 10, [], none, [], [.replay_finished], false⟩
     (by decide) (by decide) (by decide)
     (fun r h => OplogEntry.noConfusion h)⟩

theorem fzc_unfold (oplog : List OplogEntry) (start : Nat) :
    first_zone_close oplog start =
      match oplog.get? (start - 1) with
      | none => none
      | some e =>
        if persist_nothing_zone_close e 0 then some start
        else first_zone_close oplog (start + 1) := by
  unfold first_zone_close
  cases hf : oplog.length + 1 - start with
  | zero =>
    have hnone : oplog.get? (start - 1) = none :=
      List.get?_eq_none.mpr (by omega)
    rw [first_zone_close_aux, hnone]
  | succ m =>
    rw [first_zone_close_aux]
    cases hg : oplog.get? (start - 1) with
    | none => rfl
    | some e =>
      have hm : m = oplog.length + 1 - (start + 1) := by omega
      rw [hm]

theorem fzc_aux_bounds (oplog : List OplogEntry) :
    ∀ (fuel start j : Nat), first_zone_close_aux oplog fuel start = some j →
      start ≤ j ∧ j ≤ oplog.length ∧
      ∃ e, oplog.get? (j - 1) = some e ∧ persist_nothing_zone_close e 0 = true := by
  intro fuel
  induction fuel with
  | zero => intro start j h; exact Option.noConfusion h
  | succ fuel ih =>
    intro start j h
    rw [first_zone_close_aux] at h
    cases hg : oplog.get? (start - 1) with
    | none => simp only [hg] at h; exact Option.noConfusion h
    | some e =>
      simp only [hg] at h
      by_cases hc : persist_nothing_zone_close e 0 = true
      · rw [if_pos hc, Option.some.injEq] at h
        subst h
        have hlen : start - 1 < oplog.length := by
          by_contra hge
          rw [List.get?_eq_none.mpr (Nat.le_of_not_lt hge)] at hg
          exact Option.noConfusion hg
        exact ⟨Nat.le_refl _, by omega, e, hg, hc⟩
      · rw [if_neg hc] at h
        obtain ⟨h1, h2, h3⟩ := ih (start + 1) j h
        exact ⟨by omega, h2, h3⟩

theorem fzc_bounds (oplog : List OplogEntry) (start j : Nat)
    (h : first_zone_close oplog start = some j) :
    start ≤ j ∧ j ≤ oplog.length ∧
    ∃ e, oplog.get? (j - 1) = some e ∧ persist_nothing_zone_close e 0 = true :=
  fzc_aux_bounds oplog _ start j h

theorem fzc_shift (oplog : List OplogEntry) :
    ∀ (k start j : Nat), first_zone_close oplog start = some j →
      start + k ≤ j → first_zone_close oplog (start + k) = some j := by
  intro k
  induction k with
  | zero => intro start j h _; exact h
  | succ k ih =>
    intro start j h hk
    rw [fzc_unfold] at h
    cases hg : oplog.get? (start - 1) with
    | none => simp only [hg] at h; exact Option.noConfusion h
    | some e =>
      simp only [hg] at h
      by_cases hc : persist_nothing_zone_close e 0 = true
      · rw [if_pos hc, Option.some.injEq] at h
        omega
      · rw [if_neg hc] at h
        have := ih (start + 1) j h (by omega)
        rw [show start + (k + 1) = start + 1 + k from by omega]
        exact this

theorem fzc_shift_none (oplog : List OplogEntry) :
    ∀ (k start : Nat), first_zone_close oplog start = none →
      first_zone_close oplog (start + k) = none := by
  intro k
  induction k with
  | zero => intro start h; exact h
  | succ k ih =>
    intro start h
    rw [fzc_unfold] at h
    cases hg : oplog.get? (start - 1) with
    | none =>
      rw [fzc_unfold]
      have hnone : oplog.get? (start + (k + 1) - 1) = none := by
        rw [List.get?_eq_none]
        rw [List.get?_eq_none] at hg
        omega
      rw [hnone]
    | some e =>
      simp only [hg] at h
      by_cases hc : persist_nothing_zone_close e 0 = true
      · rw [if_pos hc] at h; exact Option.noConfusion h
      · rw [if_neg hc] at h
        have := ih (start + 1) h
        rw [show start + (k + 1) = start + 1 + k from by omega]
        exact this

theorem oplog_read_length_le (oplog : List OplogEntry) :
    ∀ (n start : Nat), (oplog_read oplog start n).length ≤ n := by
  intro n
  induction n with
  | zero => intro start; rw [oplog_read]; exact Nat.le_refl 0
  | succ n ih =>
    intro start
    rw [oplog_read]
    cases hg : oplog.get? (start - 1) with
    | none => simp
    | some e => simpa using ih (start + 1)

theorem scan_chunk_fzc (oplog : List OplogEntry) (begin_idx : Nat) :
    ∀ (n start : Nat), 1 ≤ start →
      lookup_scan_chunk [] persist_nothing_zone_close (fun _ _ => true) begin_idx
        (oplog_read oplog start n) none =
      (match first_zone_close oplog start with
       | some j => if j < start + n then Except.error (some j) else Except.ok none
       | none => Except.ok none) := by
  intro n
  induction n with
  | zero =>
    intro start h1
    rw [oplog_read, lookup_scan_chunk]
    cases hf : first_zone_close oplog start with
    | none => rfl
    | some j =>
      have hb := (fzc_bounds oplog start j hf).1
      show Except.ok none = if j < start + 0 then Except.error (some j) else Except.ok none
      rw [if_neg (by omega)]
  | succ n ih =>
    intro start h1
    rw [oplog_read]
    cases hg : oplog.get? (start - 1) with
    | none =>
      have hf : first_zone_close oplog start = none := by
        rw [fzc_unfold]
        simp only [hg]
      rw [hf, lookup_scan_chunk]
    | some e =>
      rw [lookup_scan_chunk]
      simp only [Option.map_none', Option.getD_none, Bool.false_eq_true, if_false]
      cases hc : persist_nothing_zone_close e begin_idx with
      | true =>
        have hc0 : persist_nothing_zone_close e 0 = true := hc
        have hf : first_zone_close oplog start = some start := by
          rw [fzc_unfold]
          simp only [hg, hc0, if_true]
        rw [hf]
        show Except.error (some start) =
          if start < start + (n + 1) then Except.error (some start) else Except.ok none
        rw [if_pos (by omega)]
      | false =>
        have hc0 : persist_nothing_zone_close e 0 = false := hc
        have hf : first_zone_close oplog start = first_zone_close oplog (start + 1) := by
          rw [fzc_unfold]
          simp only [hg, hc0, Bool.false_eq_true, if_false]
        rw [hf]
        show lookup_scan_chunk [] persist_nothing_zone_close (fun _ _ => true) begin_idx
            (oplog_read oplog (start + 1) n) none =
          match first_zone_close oplog (start + 1) with
          | some j =>
            if j < start + (n + 1) then Except.error (some j) else Except.ok none
          | none => Except.ok none
        rw [ih (start + 1) (by omega)]
        cases hf1 : first_zone_close oplog (start + 1) with
        | none => rfl
        | some j =>
          show (if j < start + 1 + n then Except.error (some j) else Except.ok none) =
            if j < start + (n + 1) then Except.error (some j) else Except.ok none
          rw [show start + 1 + n = start + (n + 1) from by omega]

theorem lookup_loop_fzc (oplog : List OplogEntry) (begin_idx : Nat) :
    ∀ (fuel start : Nat), 1 ≤ start → oplog.length - start < fuel →
      ∃ res, lookup_loop oplog oplog.length [] persist_nothing_zone_close
          (fun _ _ => true) begin_idx fuel start none = some res ∧
        (∀ j, res = some j → first_zone_close oplog start = some j) ∧
        (res = none → first_zone_close oplog start = none ∨
          first_zone_close oplog start = some oplog.length) := by
  intro fuel
  induction fuel with
  | zero => intro start h1 h2; omega
  | succ fuel ih =>
    intro start h1 h2
    rw [lookup_loop]
    by_cases hlt : start < oplog.length
    · rw [if_pos hlt]
      obtain ⟨e, rest, hE, hchunk⟩ := oplog_read_cons oplog start 1023 (by omega)
      have hlen : rest.length + 1 ≤ 1024 := by
        have := oplog_read_length_le oplog 1024 start
        rw [hchunk] at this
        simpa using this
      have hscan := scan_chunk_fzc oplog begin_idx 1024 start h1
      rw [hchunk] at hscan
      simp only [hchunk]
      have heq : OplogIndex.next (OplogIndex.range_end start ((start, e) :: rest).length)
          = start + (rest.length + 1) := by
        simp only [OplogIndex.next, OplogIndex.range_end, List.length_cons]
        omega
      cases hf : first_zone_close oplog start with
      | some j =>
        rw [hf] at hscan
        have hscan' : lookup_scan_chunk [] persist_nothing_zone_close
            (fun _ _ => true) begin_idx ((start, e) :: rest) none =
            if j < start + 1024 then Except.error (some j) else Except.ok none := hscan
        by_cases hj : j < start + 1024
        · rw [if_pos hj] at hscan'
          rw [hscan']
          exact ⟨some j, rfl, fun j' h => h, fun h => Option.noConfusion h⟩
        · rw [if_neg hj] at hscan'
          rw [hscan', heq]
          have hshift := fzc_shift oplog (rest.length + 1) start j hf (by omega)
          obtain ⟨res, hres, hsome, hnone⟩ := ih (start + (rest.length + 1))
            (by omega) (by omega)
          refine ⟨res, hres, ?_, ?_⟩
          · intro j' hj'
            have hx := hsome j' hj'
            rw [hshift, Option.some.injEq] at hx
            rw [hx]
          · intro hn
            rcases hnone hn with h | h
            · rw [hshift] at h
              exact Option.noConfusion h
            · rw [hshift, Option.some.injEq] at h
              right
              rw [h]
      | none =>
        rw [hf] at hscan
        have hscan' : lookup_scan_chunk [] persist_nothing_zone_close
            (fun _ _ => true) begin_idx ((start, e) :: rest) none =
            Except.ok none := hscan
        rw [hscan', heq]
        have hshift := fzc_shift_none oplog (rest.length + 1) start hf
        obtain ⟨res, hres, hsome, hnone⟩ := ih (start + (rest.length + 1))
          (by omega) (by omega)
        refine ⟨res, hres, ?_, fun _ => Or.inl rfl⟩
        intro j' hj'
        have hx := hsome j' hj'
        rw [hshift] at hx
        exact Option.noConfusion hx
    · rw [if_neg hlt]
      refine ⟨none, rfl, fun j h => Option.noConfusion h, fun _ => ?_⟩
      cases hf : first_zone_close oplog start with
      | none => exact Or.inl rfl
      | some j =>
        obtain ⟨hge, hle, _⟩ := fzc_bounds oplog start j hf
        right
        have : j = oplog.length := by omega
        rw [this]

/-- Claim C2: when a read encounters a ChangePersistenceLevel(PersistNothing)
entry, the skip rule advances the cursor exactly to the first later entry that
re-enters a non-PersistNothing level or is ExportedFunctionCompleted
(first_zone_close, written from the specification's words), or to
replay_target when no such close exists; concretely, on scenario S3 the first
get_oplog_entry after new returns the entry at index 6, so no entry strictly
between the opening entry 2 and its close 5 is returned to the caller. -/
theorem claim_C2 :
    (∀ (oplog : List OplogEntry) (s : ReplayState),
      s.wf oplog → s.skipped_regions = [] → s.next_skipped_region = none →
      s.should_skip_to oplog (.change_persistence_level .persist_nothing) =
        some (some ((first_zone_close oplog
          (OplogIndex.next s.last_replayed_index)).getD s.replay_target))) ∧
    ((ReplayState.new oplogS3 [] 6).bind
        (fun s => s.get_oplog_entry oplogS3)).map (fun p => p.1) =
      some (6, .exported_function_invoked 7 [1] 9) := by
  constructor
  · intro oplog s hwf hregs hnext
    obtain ⟨ht, hle, hrs, hnr⟩ := hwf
    obtain ⟨res, hres, hsome, hnone⟩ := lookup_loop_fzc oplog s.last_replayed_index
      (oplog.length + 2) (OplogIndex.next s.last_replayed_index)
      (by unfold OplogIndex.next; omega) (by unfold OplogIndex.next; omega)
    have hlook : s.lookup_oplog_entry oplog s.last_replayed_index
        persist_nothing_zone_close = some res := by
      show lookup_loop oplog s.replay_target s.skipped_regions
          persist_nothing_zone_close (fun _ _ => true) s.last_replayed_index
          (s.replay_target + 2) (OplogIndex.next s.last_replayed_index)
          s.next_skipped_region = some res
      rw [ht, hregs, hnext]
      exact hres
    have hred : s.should_skip_to oplog (.change_persistence_level .persist_nothing) =
        (match s.lookup_oplog_entry oplog s.last_replayed_index
            persist_nothing_zone_close with
         | none => none
         | some (some end_index) => some (some end_index)
         | some none => some (some s.replay_target)) := rfl
    cases res with
    | some j =>
      have hj := hsome j rfl
      have key : s.should_skip_to oplog
          (.change_persistence_level .persist_nothing) = some (some j) := by
        rw [hred, hlook]
      rw [key, hj]
      rfl
    | none =>
      have key : s.should_skip_to oplog
          (.change_persistence_level .persist_nothing) =
          some (some s.replay_target) := by
        rw [hred, hlook]
      rcases hnone rfl with h | h
      · rw [key, h]
        rfl
      · rw [key, h, ht]
        rfl
  · decide

/-- Witness for claim C2: the general skip equation applied to the concrete
state with replay target 6 and cursor at 2 over the scenario S3 log, where
the first zone close after position 3 is computable. -/
theorem claim_C2_witness :
    ReplayState.should_skip_to oplogS3
        ⟨6, 2, [], none, [], [], false⟩
        (.change_persistence_level .persist_nothing) =
      some (some ((first_zone_close oplogS3 3).getD 6)) :=
  claim_C2.1 oplogS3 ⟨6, 2, [], none, [], [], false⟩ (by decide) rfl rfl
